import Mathlib

/- Shallow embedding of src/main.py (class QLApontamentos): a pandas pipeline
   that loads a timesheet spreadsheet, cleans it, aggregates hours per member
   over a date range, formats the durations and appends an expected-hours
   column.  Tables are modelled as a header (ordered column names) plus rows
   of cells; Python floats are modelled as exact rationals and datetimes as
   integer seconds since an arbitrary epoch.  The date-parsing grammar of
   pandas to_datetime is abstracted as a parameter (parse); numeric epoch
   timestamps are modelled as unparseable, which no claim depends on. -/

inductive Cell where
  | str (s : String)
  | num (q : ℚ)
  | date (d : ℤ)
  | strs (l : List String)
  | na
  deriving DecidableEq, Repr

structure Table where
  header : List String
  rows : List (List Cell)
  deriving DecidableEq, Repr

/-- Python str.strip() whitespace set (ASCII part). -/
def pyIsSpace (c : Char) : Bool :=
  c = ' ' || c = '\t' || c = '\n' || c = '\r' || c = '\x0b' || c = '\x0c'

/-- Strip leading and trailing whitespace from a character list. -/
def stripChars (l : List Char) : List Char :=
  ((l.dropWhile pyIsSpace).reverse.dropWhile pyIsSpace).reverse

/-- Model of Python str.strip(). -/
def pyStrip (s : String) : String :=
  String.mk (stripChars s.toList)

/-- Split a character list at every semicolon, keeping empty segments,
    as re.split does. -/
def splitSemis : List Char → List (List Char)
  | [] => [[]]
  | c :: rest =>
    if c = ';' then [] :: splitSemis rest
    else
      match splitSemis rest with
      | [] => [[c]]
      | h :: t => (c :: h) :: t

/-- Model of re.split applied with the pattern matching one semicolon,
    as used by data.str.split in clean_data. -/
def pySplit (s : String) : List String :=
  (splitSemis s.toList).map String.mk

/-- Index of the first column with the given name, as pandas label lookup. -/
def colIdx : List String → String → Option Nat
  | [], _ => none
  | x :: xs, c => if x = c then some 0 else (colIdx xs c).map (· + 1)

/-- Replace the entry at one position of a row, leaving short rows alone. -/
def mapAt : Nat → (Cell → Cell) → List Cell → List Cell
  | _, _, [] => []
  | 0, f, c :: r => f c :: r
  | Nat.succ n, f, c :: r => c :: mapAt n f r

/-- One row of a column projection: pick the cells of the named columns. -/
def projectRow (h : List String) (cols : List String) (r : List Cell) : List Cell :=
  cols.map (fun c => r.getD ((colIdx h c).getD 0) Cell.na)

/-- data[[cols]]: keep only the named columns; KeyError (none) when one is
    absent. -/
def project (t : Table) (cols : List String) : Option Table :=
  if cols.all (fun c => (colIdx t.header c).isSome) then
    some ⟨cols, t.rows.map (projectRow t.header cols)⟩
  else none

/-- data[c] = data[c].map f : rewrite one column in every row. -/
def mapCol (t : Table) (c : String) (f : Cell → Cell) : Table :=
  match colIdx t.header c with
  | none => t
  | some i => ⟨t.header, t.rows.map (mapAt i f)⟩

/-- data.rename(columns=dict starting the Membro rename, inplace=True). -/
def renameHeader (h : List String) : List String :=
  h.map (fun c => if c = "Membro - name" then "Membro" else c)

/-- The eight columns kept by clean_data, in projection order. -/
def requiredCols : List String :=
  ["Membro", "Categoria", "Reunião", "Atribuição Interna",
   "Data - start", "Data - end", "Duração", "Detalhamento"]

/-- data.str.split on one cell: strings are split, anything else becomes
    the missing marker (the pandas .str accessor yields NaN off strings). -/
def splitCell : Cell → Cell
  | Cell.str s => Cell.strs (pySplit s)
  | _ => Cell.na

/-- data.str.strip on one cell. -/
def stripCell : Cell → Cell
  | Cell.str s => Cell.str (pyStrip s)
  | _ => Cell.na

/-- DataFrame.explode on one row: one output row per element of the
    list-valued cell; an empty list yields a single NaN row; non-lists
    pass through unchanged. -/
def explodeRow (i : Nat) (r : List Cell) : List (List Cell) :=
  match r.getD i Cell.na with
  | Cell.strs [] => [mapAt i (fun _ => Cell.na) r]
  | Cell.strs l => l.map (fun s => mapAt i (fun _ => Cell.str s) r)
  | _ => [r]

/-- DataFrame.explode over a named column. -/
def explode (t : Table) (c : String) : Table :=
  match colIdx t.header c with
  | none => t
  | some i => ⟨t.header, t.rows.flatMap (explodeRow i)⟩

/-- pd.to_datetime(_, errors=coerce) on one cell, with the library's date
    grammar abstracted by parse: unparseable values become the NaT marker. -/
def coerceDate (parse : String → Option ℤ) : Cell → Cell
  | Cell.date d => Cell.date d
  | Cell.str s =>
    match parse s with
    | some d => Cell.date d
    | none => Cell.na
  | _ => Cell.na

inductive CleanError where
  | schemaError
  deriving DecidableEq, Repr

/-- clean_data from src/main.py.  The first component of the result is the
    state of the caller's argument after the call: the rename is performed
    with inplace=True on the caller's frame, while the column projection
    creates the fresh frame that the remaining steps (and the returned
    table) operate on. -/
def clean_data (parse : String → Option ℤ) (data : Table) : Table × Except CleanError Table :=
  let renamed : Table := ⟨renameHeader data.header, data.rows⟩
  match project renamed requiredCols with
  | none => (renamed, Except.error CleanError.schemaError)
  | some t0 =>
    let t1 := mapCol t0 "Membro" splitCell
    let t2 := explode t1 "Membro"
    let t3 := mapCol t2 "Membro" stripCell
    let t4 := mapCol t3 "Data - start" (coerceDate parse)
    let t5 := mapCol t4 "Data - end" (coerceDate parse)
    (renamed, Except.ok t5)

/-- The boolean mask of sum_hours on one start-date cell: datetime
    comparisons against NaT are False in pandas, so only date cells in the
    inclusive range match. -/
def maskCell (s e : ℤ) : Cell → Bool
  | Cell.date d => decide (s ≤ d) && decide (d ≤ e)
  | _ => false

/-- data[mask]: keep the rows whose start-date matches the range mask. -/
def filterRows (t : Table) (s e : ℤ) : Table :=
  match colIdx t.header "Data - start" with
  | none => t
  | some i => ⟨t.header, t.rows.filter (fun r => maskCell s e (r.getD i Cell.na))⟩

/-- groupby key of a member cell: pandas groupby drops NaN keys. -/
def memKey : Cell → Option String
  | Cell.str s => some s
  | _ => none

/-- Numeric view of a duration cell; NaN sums as zero (pandas skipna). -/
def numView : Cell → ℚ
  | Cell.num q => q
  | _ => 0

/-- Comparison used by sort_values on the summed-duration column. -/
def durLe (a b : String × ℚ) : Prop := a.2 ≤ b.2

instance : DecidableRel durLe := fun a b => inferInstanceAs (Decidable (a.2 ≤ b.2))

instance : IsTotal (String × ℚ) durLe := ⟨fun a b => le_total a.2 b.2⟩

instance : IsTrans (String × ℚ) durLe := ⟨fun _ _ _ h1 h2 => le_trans h1 h2⟩

/-- groupby(Membro)[Duracao].sum(): one pair per distinct non-missing member
    key, keys in ascending order (groupby sorts keys by default), value the
    sum of that group's durations. -/
def groupSum (t : Table) : List (String × ℚ) :=
  let im := (colIdx t.header "Membro").getD 0
  let idur := (colIdx t.header "Duração").getD 0
  let keys := List.insertionSort (· ≤ ·)
    ((t.rows.filterMap (fun r => memKey (r.getD im Cell.na))).dedup)
  keys.map (fun k =>
    (k, ((t.rows.filter (fun r => decide (r.getD im Cell.na = Cell.str k))).map
          (fun r => numView (r.getD idur Cell.na))).sum))

/-- sum_hours from src/main.py.  sort_values(ascending=False) is modelled,
    following pandas nargsort, by reversing the grouped rows, sorting them
    ascending with a stable sort (numpy's kernel is insertion sort on the
    small frames at issue) and reversing the result: the two reversals
    cancel on ties, giving a stable descending sort that preserves the
    grouped order of equal sums. -/
def sum_hours (data : Table) (start_date end_date : ℤ) : Table :=
  let filtered := filterRows data start_date end_date
  let grouped := groupSum filtered
  let sorted := (List.insertionSort durLe grouped.reverse).reverse
  ⟨["Membro", "Duração"], sorted.map (fun p => [Cell.str p.1, Cell.num p.2])⟩

/-- Python int() on a float: truncation toward zero. -/
def pyInt (x : ℚ) : ℤ :=
  if 0 ≤ x then ⌊x⌋ else -⌊-x⌋

/-- Python format spec 02d: zero-pad to two characters. -/
def pad2 (n : ℤ) : String :=
  if 0 ≤ n ∧ n < 10 then "0" ++ toString n else toString n

/-- The lambda of format_hours: int(x) hours then int((x - int(x)) * 60)
    minutes, zero padded. -/
def formatHourStr (x : ℚ) : String :=
  toString (pyInt x) ++ "h" ++ pad2 (pyInt ((x - (pyInt x : ℚ)) * 60)) ++ "min"

/-- format_hours from src/main.py: rewrite the duration column as a string
    and rename it.  The lambda raises on a non-float cell; such cells never
    occur on the aggregate tables it receives and are modelled as NaN. -/
def format_hours (data : Table) : Table :=
  let t := mapCol data "Duração" (fun c =>
    match c with
    | Cell.num q => Cell.str (formatHourStr q)
    | _ => Cell.na)
  ⟨t.header.map (fun c => if c = "Duração" then "Total de Horas" else c), t.rows⟩

def secondsPerDay : ℤ := 86400

/-- add_expected_hours from src/main.py.  The wall-clock read
    (datetime.now()) is made explicit as the parameter now; timedelta.days
    is floored division of the elapsed seconds, and Python floor division
    is Int.fdiv. -/
def add_expected_hours (now : ℤ) (data : Table) (start_date : ℤ) : Table :=
  let days := Int.fdiv (now - start_date) secondsPerDay
  let weeks := Int.fdiv days 7
  let expected_hours := (weeks - 1) * 6
  ⟨data.header ++ ["Horas Esperadas"],
   data.rows.map (fun r => r ++ [Cell.num (expected_hours : ℚ)])⟩

inductive LoadResult where
  | notFound (path : String)
  | loadError (msg : String)
  | ok (t : Table)
  deriving DecidableEq, Repr

/-- get_data from src/main.py over an abstract filesystem: pathExists is
    os.path.exists, readExcel is pd.read_excel (errors are the wrapped
    parse failure).  The boolean records whether the file was opened
    (read_excel invoked) at all. -/
def get_data (pathExists : String → Bool) (readExcel : String → Except String Table)
    (file_path : String) : LoadResult × Bool :=
  if pathExists file_path then
    match readExcel file_path with
    | Except.error e => (LoadResult.loadError e, true)
    | Except.ok t => (LoadResult.ok t, true)
  else (LoadResult.notFound file_path, false)

/-- The main block's pipeline after loading: clean, aggregate, format, add
    expected hours.  A cleaning failure aborts before any aggregation. -/
def run_pipeline (parse : String → Option ℤ) (now : ℤ) (raw : Table)
    (start_date end_date : ℤ) : Except CleanError Table :=
  match (clean_data parse raw).2 with
  | Except.error er => Except.error er
  | Except.ok df =>
    Except.ok (add_expected_hours now (format_hours (sum_hours df start_date end_date)) start_date)

/-- to_datetime applied to the two date columns of a projected row. -/
def dateFix (parse : String → Option ℤ) (r : List Cell) : List Cell :=
  mapAt 5 (coerceDate parse) (mapAt 4 (coerceDate parse) r)

/-- The fate of one projected row through split, explode, strip and date
    coercion: a string member field yields one row per split segment, each
    trimmed, in split order; any other member field yields a single row
    with the missing marker. -/
def processRow (parse : String → Option ℤ) (r : List Cell) : List (List Cell) :=
  match r.getD 0 Cell.na with
  | Cell.str s =>
    (pySplit s).map (fun seg => dateFix parse (mapAt 0 (fun _ => Cell.str (pyStrip seg)) r))
  | _ => [dateFix parse (mapAt 0 (fun _ => Cell.na) r)]

/-- Number of split segments of a member cell. -/
def segCount : Cell → Nat
  | Cell.str s => s.toList.count ';' + 1
  | _ => 1

/-- Modelled from the spec: the duration format the specification states,
    with the minutes obtained by rounding to the nearest integer instead
    of truncation. -/
def specFormatHourStr (x : ℚ) : String :=
  toString ⌊x⌋ ++ "h" ++ pad2 (round ((x - (⌊x⌋ : ℚ)) * 60)) ++ "min"

/-- A date parser accepting nothing, for concrete instances. -/
def parseNone : String → Option ℤ := fun _ => none

/-- The raw header, before the in-place rename. -/
def rawHeader : List String :=
  ["Membro - name", "Categoria", "Reunião", "Atribuição Interna",
   "Data - start", "Data - end", "Duração", "Detalhamento"]

def exRaw : Table :=
  ⟨rawHeader,
   [[Cell.str "Alice; Bob", Cell.str "c", Cell.str "r", Cell.str "a",
     Cell.date 10, Cell.date 11, Cell.num 3, Cell.str "d"]]⟩

def exRawClean : Table :=
  ⟨requiredCols,
   [[Cell.str "Alice", Cell.str "c", Cell.str "r", Cell.str "a",
     Cell.date 10, Cell.date 11, Cell.num 3, Cell.str "d"],
    [Cell.str "Bob", Cell.str "c", Cell.str "r", Cell.str "a",
     Cell.date 10, Cell.date 11, Cell.num 3, Cell.str "d"]]⟩

def exC2 : Table :=
  ⟨requiredCols,
   [[Cell.str "Bob", Cell.str "c", Cell.str "r", Cell.str "a",
     Cell.date 10, Cell.date 11, Cell.num 5, Cell.str "d"],
    [Cell.str "Alice", Cell.str "c", Cell.str "r", Cell.str "a",
     Cell.date 20, Cell.date 21, Cell.num 5, Cell.str "d"]]⟩

def exC3 : Table :=
  ⟨["Membro", "Duração"], [[Cell.str "A", Cell.num (1999999/1000000)]]⟩

def exC3b : Table :=
  ⟨["Membro", "Duração"], [[Cell.str "A", Cell.num (15/2)]]⟩

def exC3c : Table :=
  ⟨["Membro", "Duração"], [[Cell.str "A", Cell.num 0]]⟩

def exRawNa : Table :=
  ⟨rawHeader,
   [[Cell.str "Alice", Cell.str "c", Cell.str "r", Cell.str "a",
     Cell.date 10, Cell.date 11, Cell.num 1, Cell.str "d"],
    [Cell.na, Cell.str "c", Cell.str "r", Cell.str "a",
     Cell.date 10, Cell.date 11, Cell.num 7, Cell.str "d"]]⟩

def exRawNaClean : Table :=
  ⟨requiredCols,
   [[Cell.str "Alice", Cell.str "c", Cell.str "r", Cell.str "a",
     Cell.date 10, Cell.date 11, Cell.num 1, Cell.str "d"],
    [Cell.na, Cell.str "c", Cell.str "r", Cell.str "a",
     Cell.date 10, Cell.date 11, Cell.num 7, Cell.str "d"]]⟩

def exTrail : Table :=
  ⟨rawHeader,
   [[Cell.str "Alice;", Cell.str "c", Cell.str "r", Cell.str "a",
     Cell.date 10, Cell.date 11, Cell.num 1, Cell.str "d"]]⟩

def exTrailClean : Table :=
  ⟨requiredCols,
   [[Cell.str "Alice", Cell.str "c", Cell.str "r", Cell.str "a",
     Cell.date 10, Cell.date 11, Cell.num 1, Cell.str "d"],
    [Cell.str "", Cell.str "c", Cell.str "r", Cell.str "a",
     Cell.date 10, Cell.date 11, Cell.num 1, Cell.str "d"]]⟩

def exMissing : Table := ⟨["Categoria"], []⟩

def fsEmpty : String → Bool := fun _ => false

def readFail : String → Except String Table := fun _ => Except.error "bad file"

/-- Decidable equality of load and clean results, for concrete instances. -/
instance {e a : Type} [DecidableEq e] [DecidableEq a] : DecidableEq (Except e a) :=
  fun x y =>
    match x, y with
    | Except.error e1, Except.error e2 =>
      if h : e1 = e2 then isTrue (by rw [h]) else isFalse (by simp [h])
    | Except.ok x1, Except.ok y1 =>
      if h : x1 = y1 then isTrue (by rw [h]) else isFalse (by simp [h])
    | Except.error _, Except.ok _ => isFalse (by simp)
    | Except.ok _, Except.error _ => isFalse (by simp)

/- ## Basic lemmas on the table primitives -/

theorem length_mapAt (i : Nat) (f : Cell → Cell) (r : List Cell) :
    (mapAt i f r).length = r.length := by
  induction r generalizing i with
  | nil => simp [mapAt]
  | cons c t ih =>
    cases i with
    | zero => rfl
    | succ n => simpa [mapAt] using ih n

theorem getD_mapAt_ne (i j : Nat) (h : j ≠ i) (f : Cell → Cell) (r : List Cell) :
    (mapAt i f r).getD j Cell.na = r.getD j Cell.na := by
  induction r generalizing i j with
  | nil => simp [mapAt]
  | cons c t ih =>
    cases i with
    | zero =>
      cases j with
      | zero => exact absurd rfl h
      | succ m => simp [mapAt]
    | succ n =>
      cases j with
      | zero => simp [mapAt]
      | succ m =>
        simp only [mapAt, List.getD_cons_succ]
        exact ih n m (fun hc => h (by omega))

theorem colIdx_eq_none_iff (h : List String) (c : String) :
    colIdx h c = none ↔ c ∉ h := by
  induction h with
  | nil => simp [colIdx]
  | cons x xs ih =>
    by_cases hx : x = c
    · subst hx; simp [colIdx]
    · simp [colIdx, hx, ih, Ne.symm hx]

theorem colIdx_isSome_iff (h : List String) (c : String) :
    (colIdx h c).isSome = true ↔ c ∈ h := by
  rw [Option.isSome_iff_ne_none, not_iff_comm, colIdx_eq_none_iff]

theorem splitSemis_ne_nil (l : List Char) : splitSemis l ≠ [] := by
  cases l with
  | nil => simp [splitSemis]
  | cons c rest =>
    by_cases hc : c = ';'
    · simp [splitSemis, hc]
    · simp only [splitSemis, hc, if_false]
      cases h : splitSemis rest <;> simp

theorem length_splitSemis (l : List Char) :
    (splitSemis l).length = l.count ';' + 1 := by
  induction l with
  | nil => simp [splitSemis]
  | cons c rest ih =>
    by_cases hc : c = ';'
    · subst hc; simp [splitSemis, List.count_cons, ih]
    · cases h : splitSemis rest with
      | nil => exact absurd h (splitSemis_ne_nil rest)
      | cons a as =>
        rw [h] at ih
        simp [splitSemis, hc, h, List.count_cons, hc]
        simpa using ih


theorem length_pySplit (s : String) :
    (pySplit s).length = s.toList.count ';' + 1 := by
  simp [pySplit, length_splitSemis]

theorem pySplit_ne_nil (s : String) : pySplit s ≠ [] := by
  intro h
  have := length_pySplit s
  rw [h] at this
  simp at this

/- ## Whitespace stripping -/

theorem dropWhile_self_idem (p : Char → Bool) (l : List Char) :
    (l.dropWhile p).dropWhile p = l.dropWhile p := by
  induction l with
  | nil => rfl
  | cons c t ih =>
    by_cases hc : p c
    · simp [List.dropWhile_cons, hc, ih]
    · simp [List.dropWhile_cons, hc]

theorem head?_dropWhile_not (p : Char → Bool) (l : List Char) (c : Char)
    (h : (l.dropWhile p).head? = some c) : p c = false := by
  induction l with
  | nil => simp at h
  | cons a t ih =>
    by_cases ha : p a
    · rw [List.dropWhile_cons, if_pos ha] at h
      exact ih h
    · rw [List.dropWhile_cons, if_neg ha] at h
      simp only [List.head?_cons, Option.some.injEq] at h
      subst h
      simpa using ha

theorem dropWhile_eq_self_of_head (p : Char → Bool) (l : List Char)
    (h : ∀ c, l.head? = some c → p c = false) : l.dropWhile p = l := by
  cases l with
  | nil => rfl
  | cons a t =>
    rw [List.dropWhile_cons, if_neg]
    simp [h a rfl]

theorem getLast?_dropWhile_ne_nil (p : Char → Bool) (l : List Char)
    (h : l.dropWhile p ≠ []) : (l.dropWhile p).getLast? = l.getLast? := by
  conv_rhs => rw [← List.takeWhile_append_dropWhile (p := p) (l := l)]
  rw [List.getLast?_append]
  cases hg : (l.dropWhile p).getLast? with
  | some c => rfl
  | none =>
    exact absurd (List.getLast?_eq_none_iff.mp hg) h

theorem stripChars_idem (l : List Char) : stripChars (stripChars l) = stripChars l := by
  by_cases hm : (l.dropWhile pyIsSpace).reverse.dropWhile pyIsSpace = []
  · simp [stripChars, hm, List.dropWhile_nil]
  · have hself : ((l.dropWhile pyIsSpace).reverse.dropWhile pyIsSpace).reverse.dropWhile pyIsSpace
        = ((l.dropWhile pyIsSpace).reverse.dropWhile pyIsSpace).reverse := by
      apply dropWhile_eq_self_of_head
      intro c hc
      rw [List.head?_reverse] at hc
      rw [getLast?_dropWhile_ne_nil _ _ hm, List.getLast?_reverse] at hc
      exact head?_dropWhile_not _ _ _ hc
    unfold stripChars
    rw [hself, List.reverse_reverse, dropWhile_self_idem]

theorem pyStrip_idem (s : String) : pyStrip (pyStrip s) = pyStrip s := by
  show String.mk (stripChars (stripChars s.toList)) = _
  rw [stripChars_idem]
  rfl

/- ## Column indices of the projected header -/

theorem colIdx_req_membro : colIdx requiredCols "Membro" = some 0 := by rfl

theorem colIdx_req_datastart : colIdx requiredCols "Data - start" = some 4 := by rfl

theorem colIdx_req_dataend : colIdx requiredCols "Data - end" = some 5 := by rfl

theorem colIdx_req_dur : colIdx requiredCols "Duração" = some 6 := by rfl

theorem mapCol_eq (t : Table) (c : String) (f : Cell → Cell) (i : Nat)
    (h : colIdx t.header c = some i) :
    mapCol t c f = ⟨t.header, t.rows.map (mapAt i f)⟩ := by
  unfold mapCol
  rw [h]

theorem explode_eq (t : Table) (c : String) (i : Nat)
    (h : colIdx t.header c = some i) :
    explode t c = ⟨t.header, t.rows.flatMap (explodeRow i)⟩ := by
  unfold explode
  rw [h]

theorem filterRows_eq (t : Table) (s e : ℤ) (i : Nat)
    (h : colIdx t.header "Data - start" = some i) :
    filterRows t s e = ⟨t.header, t.rows.filter (fun r => maskCell s e (r.getD i Cell.na))⟩ := by
  unfold filterRows
  rw [h]

/- ## The per-row effect of the cleaning chain -/

theorem explode_chain_row (parse : String → Option ℤ) (r : List Cell) :
    ((explodeRow 0 (mapAt 0 splitCell r)).map (mapAt 0 stripCell)).map (dateFix parse)
      = processRow parse r := by
  cases r with
  | nil => rfl
  | cons c tail =>
    cases c with
    | str s =>
      obtain ⟨a, as, ha⟩ := List.exists_cons_of_ne_nil (pySplit_ne_nil s)
      simp [mapAt, splitCell, explodeRow, ha, processRow, dateFix, stripCell, List.map_map,
        Function.comp]
    | num q => simp [mapAt, splitCell, explodeRow, processRow, dateFix, stripCell]
    | date d => simp [mapAt, splitCell, explodeRow, processRow, dateFix, stripCell]
    | strs l => simp [mapAt, splitCell, explodeRow, processRow, dateFix, stripCell]
    | na => simp [mapAt, splitCell, explodeRow, processRow, dateFix, stripCell]

theorem clean_data_fst (parse : String → Option ℤ) (t : Table) :
    (clean_data parse t).1 = ⟨renameHeader t.header, t.rows⟩ := by
  unfold clean_data
  cases hp : project ⟨renameHeader t.header, t.rows⟩ requiredCols with
  | none => simp [hp]
  | some t0 => simp [hp]

theorem all_isSome_iff (h : List String) (cols : List String) :
    cols.all (fun c => (colIdx h c).isSome) = true ↔ ∀ c ∈ cols, c ∈ h := by
  rw [List.all_eq_true]
  constructor
  · intro hx c hc
    exact (colIdx_isSome_iff h c).mp (hx c hc)
  · intro hx c hc
    exact (colIdx_isSome_iff h c).mpr (hx c hc)

theorem clean_data_err_iff (parse : String → Option ℤ) (t : Table) :
    (clean_data parse t).2 = Except.error CleanError.schemaError ↔
      ¬ ∀ c ∈ requiredCols, c ∈ renameHeader t.header := by
  rw [← all_isSome_iff]
  unfold clean_data project
  by_cases h : requiredCols.all (fun c => (colIdx (renameHeader t.header) c).isSome) = true
  · simp only [Table.header] at *
    rw [if_pos h]
    simp [h]
  · simp only [Table.header] at *
    rw [if_neg h]
    simp [h]

theorem clean_data_snd_ok (parse : String → Option ℤ) (t : Table)
    (h : requiredCols.all (fun c => (colIdx (renameHeader t.header) c).isSome) = true) :
    (clean_data parse t).2 = Except.ok
      ⟨requiredCols,
       (t.rows.map (projectRow (renameHeader t.header) requiredCols)).flatMap (processRow parse)⟩ := by
  unfold clean_data project
  simp only [Table.header]
  rw [if_pos h]
  simp only []
  rw [mapCol_eq _ "Membro" splitCell 0 colIdx_req_membro]
  rw [explode_eq _ "Membro" 0 colIdx_req_membro]
  rw [mapCol_eq _ "Membro" stripCell 0 colIdx_req_membro]
  rw [mapCol_eq _ "Data - start" (coerceDate parse) 4 colIdx_req_datastart]
  rw [mapCol_eq _ "Data - end" (coerceDate parse) 5 colIdx_req_dataend]
  simp only [Table.rows, List.map_flatMap, List.flatMap_map, List.map_map, Except.ok.injEq,
    Table.mk.injEq, true_and]
  apply congrArg
  funext r
  rw [← explode_chain_row parse (projectRow (renameHeader t.header) requiredCols r)]
  simp [List.map_map, dateFix, Function.comp]

/- ## Consequences of a successful cleaning -/

theorem clean_data_ok_inv (parse : String → Option ℤ) (t ct : Table)
    (h : (clean_data parse t).2 = Except.ok ct) :
    requiredCols.all (fun c => (colIdx (renameHeader t.header) c).isSome) = true ∧
    ct = ⟨requiredCols,
      (t.rows.map (projectRow (renameHeader t.header) requiredCols)).flatMap (processRow parse)⟩ := by
  by_cases hall : requiredCols.all (fun c => (colIdx (renameHeader t.header) c).isSome) = true
  · refine ⟨hall, ?_⟩
    rw [clean_data_snd_ok parse t hall] at h
    exact (Except.ok.inj h).symm
  · exfalso
    unfold clean_data project at h
    simp only [Table.header] at h
    rw [if_neg hall] at h
    simp at h

theorem length_processRow (parse : String → Option ℤ) (r : List Cell) :
    (processRow parse r).length = segCount (r.getD 0 Cell.na) := by
  unfold processRow
  cases hc : r.getD 0 Cell.na with
  | str s => simp [segCount, length_pySplit]
  | num q => simp [segCount]
  | date d => simp [segCount]
  | strs l => simp [segCount]
  | na => simp [segCount]

theorem one_le_segCount (c : Cell) : 1 ≤ segCount c := by
  cases c <;> simp [segCount]

theorem segCount_eq_one_iff (c : Cell) :
    segCount c = 1 ↔ ∀ s : String, c = Cell.str s → ';' ∉ s.toList := by
  cases c with
  | str s =>
    simp [segCount, List.count_eq_zero]
  | num q => simp [segCount]
  | date d => simp [segCount]
  | strs l => simp [segCount]
  | na => simp [segCount]

theorem projectRow_getD_zero (h : List String) (r : List Cell) :
    (projectRow h requiredCols r).getD 0 Cell.na
      = r.getD ((colIdx h "Membro").getD 0) Cell.na := by
  simp [projectRow, requiredCols]

theorem length_le_sum_ql (l : List Nat) (h : ∀ x ∈ l, 1 ≤ x) : l.length ≤ l.sum := by
  induction l with
  | nil => simp
  | cons a t ih =>
    have ha := h a (by simp)
    have ht := ih (fun x hx => h x (by simp [hx]))
    simp only [List.length_cons, List.sum_cons]
    omega

theorem sum_eq_length_iff_ql (l : List Nat) (h : ∀ x ∈ l, 1 ≤ x) :
    l.sum = l.length ↔ ∀ x ∈ l, x = 1 := by
  induction l with
  | nil => simp
  | cons a t ih =>
    have ha := h a (by simp)
    have hge := length_le_sum_ql t (fun x hx => h x (by simp [hx]))
    have iht := ih (fun x hx => h x (by simp [hx]))
    simp only [List.sum_cons, List.length_cons, List.mem_cons]
    constructor
    · intro he
      have haa : a = 1 := by omega
      have hts : t.sum = t.length := by omega
      intro x hx
      rcases hx with hx | hx
      · rw [hx, haa]
      · exact iht.mp hts x hx
    · intro hx
      have haa : a = 1 := hx a (Or.inl rfl)
      have hts : t.sum = t.length := iht.mpr (fun x hxm => hx x (Or.inr hxm))
      omega

theorem getD_zero_dateFix_set (parse : String → Option ℤ) (v : Cell) (r0 : List Cell) :
    (dateFix parse (mapAt 0 (fun _ => v) r0)).getD 0 Cell.na
      = match r0 with
        | [] => Cell.na
        | _ :: _ => v := by
  unfold dateFix
  rw [getD_mapAt_ne 5 0 (by omega), getD_mapAt_ne 4 0 (by omega)]
  cases r0 <;> simp [mapAt]

/-- C5: for every input accepted by clean_data, the cleaned table has at
    least as many rows as the input, with equality exactly when no member
    field contains the separator; each input row expands, contiguously and
    in place (the flatMap equation) and in split order, into exactly as many
    rows as its member field has separator-delimited segments. -/
theorem c5_clean_expansion (parse : String → Option ℤ) (t ct : Table)
    (h : (clean_data parse t).2 = Except.ok ct) :
    t.rows.length ≤ ct.rows.length ∧
    (ct.rows.length = t.rows.length ↔
      ∀ r ∈ t.rows, ∀ s : String,
        r.getD ((colIdx (renameHeader t.header) "Membro").getD 0) Cell.na = Cell.str s →
        ';' ∉ s.toList) ∧
    ct.rows = (t.rows.map (projectRow (renameHeader t.header) requiredCols)).flatMap
      (processRow parse) ∧
    (∀ r : List Cell, (processRow parse r).length = segCount (r.getD 0 Cell.na)) := by
  obtain ⟨hall, hct⟩ := clean_data_ok_inv parse t ct h
  have hrows : ct.rows = (t.rows.map (projectRow (renameHeader t.header) requiredCols)).flatMap
      (processRow parse) := by rw [hct]
  have hfun : (List.length ∘ processRow parse) ∘ projectRow (renameHeader t.header) requiredCols
      = fun r => segCount (r.getD ((colIdx (renameHeader t.header) "Membro").getD 0) Cell.na) := by
    funext r
    simp only [Function.comp]
    rw [length_processRow, projectRow_getD_zero]
  have hlen : ct.rows.length
      = (t.rows.map (fun r =>
          segCount (r.getD ((colIdx (renameHeader t.header) "Membro").getD 0) Cell.na))).sum := by
    rw [hrows, List.length_flatMap, List.map_map, hfun]
  have hall1 : ∀ x ∈ t.rows.map (fun r =>
      segCount (r.getD ((colIdx (renameHeader t.header) "Membro").getD 0) Cell.na)), 1 ≤ x := by
    intro x hx
    obtain ⟨r, hr, hxe⟩ := List.mem_map.mp hx
    rw [← hxe]
    exact one_le_segCount _
  refine ⟨?_, ?_, hrows, fun r => length_processRow parse r⟩
  · rw [hlen]
    have := length_le_sum_ql _ hall1
    simpa using this
  · rw [hlen]
    have hiff := sum_eq_length_iff_ql _ hall1
    rw [List.length_map] at hiff
    rw [hiff]
    constructor
    · intro hx r hr s hs
      have hone := hx _ (List.mem_map.mpr ⟨r, hr, rfl⟩)
      rw [hs] at hone
      exact (segCount_eq_one_iff _).mp hone s rfl
    · intro hx x hxm
      obtain ⟨r, hr, hxe⟩ := List.mem_map.mp hxm
      rw [← hxe]
      exact (segCount_eq_one_iff _).mpr (fun s hs => hx r hr s hs)

/-- C6 (amended): every cleaned member cell is the missing marker or a
    fully trimmed string (a fixed point of strip); trimmed segments can be
    empty even when the source member field was not, whenever the
    corresponding split segment was whitespace-only. -/
theorem c6_member_trimmed (parse : String → Option ℤ) (t ct : Table)
    (h : (clean_data parse t).2 = Except.ok ct) :
    ∀ r ∈ ct.rows,
      r.getD 0 Cell.na = Cell.na ∨
      ∃ s : String, r.getD 0 Cell.na = Cell.str s ∧ pyStrip s = s := by
  obtain ⟨hall, hct⟩ := clean_data_ok_inv parse t ct h
  subst hct
  intro r hr
  simp only [Table.rows] at hr
  obtain ⟨r0, hr0, hrp⟩ := List.mem_flatMap.mp hr
  revert hrp
  unfold processRow
  cases hc : r0.getD 0 Cell.na with
  | str s =>
    intro hrp
    simp only [List.mem_map] at hrp
    obtain ⟨seg, hseg, hre⟩ := hrp
    right
    refine ⟨pyStrip seg, ?_, pyStrip_idem seg⟩
    rw [← hre, getD_zero_dateFix_set]
    cases r0 with
    | nil => simp at hc
    | cons a t0 => rfl
  | num q =>
    intro hrp
    simp only [List.mem_singleton] at hrp
    subst hrp
    left
    rw [getD_zero_dateFix_set]
    cases r0 <;> rfl
  | date d =>
    intro hrp
    simp only [List.mem_singleton] at hrp
    subst hrp
    left
    rw [getD_zero_dateFix_set]
    cases r0 <;> rfl
  | strs l =>
    intro hrp
    simp only [List.mem_singleton] at hrp
    subst hrp
    left
    rw [getD_zero_dateFix_set]
    cases r0 <;> rfl
  | na =>
    intro hrp
    simp only [List.mem_singleton] at hrp
    subst hrp
    left
    rw [getD_zero_dateFix_set]
    cases r0 <;> rfl

theorem renameHeader_eq_self (h : List String) (hm : "Membro - name" ∉ h) :
    renameHeader h = h := by
  induction h with
  | nil => rfl
  | cons x xs ih =>
    simp only [List.mem_cons, not_or] at hm
    have h1 : x ≠ "Membro - name" := fun he => hm.1 he.symm
    have h2 := ih hm.2
    simp only [renameHeader, List.map_cons] at h2 ⊢
    rw [if_neg h1, h2]

/-- C7 (amended): clean_data mutates the caller's table only by the
    in-place rename of the raw member column; the cells are untouched, and
    an input without that column is returned entirely unchanged. -/
theorem c7_clean_mutation (parse : String → Option ℤ) (t : Table) :
    (clean_data parse t).1.rows = t.rows ∧
    (clean_data parse t).1.header = renameHeader t.header ∧
    ("Membro - name" ∉ t.header → (clean_data parse t).1 = t) := by
  rw [clean_data_fst]
  refine ⟨rfl, rfl, fun hm => ?_⟩
  rw [renameHeader_eq_self t.header hm]

/-- C7 as stated is false: the Loader's table is changed by the call (its
    member column has been renamed in place). -/
theorem c7_counterexample : (clean_data parseNone exRaw).1 ≠ exRaw :=
  of_decide_eq_true (by with_unfolding_all rfl)

/- ## Aggregation -/

theorem memKey_eq_some_iff (c : Cell) (k : String) :
    memKey c = some k ↔ c = Cell.str k := by
  cases c <;> simp [memKey]

theorem maskCell_iff (s e : ℤ) (c : Cell) :
    maskCell s e c = true ↔ ∃ d : ℤ, c = Cell.date d ∧ s ≤ d ∧ d ≤ e := by
  cases c <;> simp [maskCell]

theorem groupSum_req (t : Table) (hh : t.header = requiredCols) :
    groupSum t = (List.insertionSort (· ≤ ·)
      ((t.rows.filterMap (fun r => memKey (r.getD 0 Cell.na))).dedup)).map
      (fun k => (k, ((t.rows.filter (fun r => decide (r.getD 0 Cell.na = Cell.str k))).map
          (fun r => numView (r.getD 6 Cell.na))).sum)) := by
  simp only [groupSum, hh, colIdx_req_membro, colIdx_req_dur, Option.getD_some]

theorem filterRows_req (t : Table) (s e : ℤ) (hh : t.header = requiredCols) :
    filterRows t s e
      = ⟨t.header, t.rows.filter (fun r => maskCell s e (r.getD 4 Cell.na))⟩ := by
  apply filterRows_eq
  rw [hh]
  exact colIdx_req_datastart

theorem sum_hours_rows_char (t : Table) (s e : ℤ) (hh : t.header = requiredCols) :
    ∀ row ∈ (sum_hours t s e).rows, ∃ k : String, ∃ q : ℚ,
      row = [Cell.str k, Cell.num q] ∧
      q = ((t.rows.filter (fun r =>
            maskCell s e (r.getD 4 Cell.na) && decide (r.getD 0 Cell.na = Cell.str k))).map
          (fun r => numView (r.getD 6 Cell.na))).sum := by
  intro row hrow
  simp only [sum_hours] at hrow
  rw [filterRows_req t s e hh] at hrow
  rw [groupSum_req ⟨t.header, t.rows.filter (fun r => maskCell s e (r.getD 4 Cell.na))⟩ hh]
    at hrow
  rw [List.mem_map] at hrow
  obtain ⟨p, hp, hrowe⟩ := hrow
  rw [List.mem_reverse] at hp
  have hp2 := (List.perm_insertionSort durLe _).mem_iff.mp hp
  rw [List.mem_reverse] at hp2
  rw [List.mem_map] at hp2
  obtain ⟨k, hk, hpe⟩ := hp2
  subst hpe
  refine ⟨k, _, hrowe.symm, ?_⟩
  simp only [Table.rows]
  rw [List.filter_filter]
  have hcomm : List.filter (fun a =>
        decide (a.getD 0 Cell.na = Cell.str k) && maskCell s e (a.getD 4 Cell.na)) t.rows
      = List.filter (fun r =>
        maskCell s e (r.getD 4 Cell.na) && decide (r.getD 0 Cell.na = Cell.str k)) t.rows := by
    apply List.filter_congr
    intro r hr
    rw [Bool.and_comm]
  rw [hcomm]

theorem sum_hours_keys_iff (t : Table) (s e : ℤ) (hh : t.header = requiredCols) (k : String) :
    (∃ q : ℚ, [Cell.str k, Cell.num q] ∈ (sum_hours t s e).rows) ↔
    (∃ r ∈ t.rows, maskCell s e (r.getD 4 Cell.na) = true ∧ r.getD 0 Cell.na = Cell.str k) := by
  constructor
  · rintro ⟨q, hq⟩
    simp only [sum_hours] at hq
    rw [filterRows_req t s e hh] at hq
    rw [groupSum_req ⟨t.header, t.rows.filter (fun r => maskCell s e (r.getD 4 Cell.na))⟩ hh]
      at hq
    rw [List.mem_map] at hq
    obtain ⟨p, hp, hpe⟩ := hq
    have hk1 : p.1 = k := by
      have := congrArg (fun l => l.getD 0 Cell.na) hpe
      simpa using this
    rw [List.mem_reverse] at hp
    have hp2 := (List.perm_insertionSort durLe _).mem_iff.mp hp
    rw [List.mem_reverse] at hp2
    rw [List.mem_map] at hp2
    obtain ⟨k2, hk2, hpe2⟩ := hp2
    have hk2k : k2 = k := by rw [← hk1, ← hpe2]
    subst hk2k
    have hk3 := (List.perm_insertionSort (α := String) (· ≤ ·) _).mem_iff.mp hk2
    rw [List.mem_dedup, List.mem_filterMap] at hk3
    obtain ⟨r, hr, hrk⟩ := hk3
    rw [memKey_eq_some_iff] at hrk
    simp only [Table.rows] at hr
    rw [List.mem_filter] at hr
    exact ⟨r, hr.1, hr.2, hrk⟩
  · rintro ⟨r, hr, hmask, hmem⟩
    simp only [sum_hours]
    rw [filterRows_req t s e hh]
    rw [groupSum_req ⟨t.header, t.rows.filter (fun r => maskCell s e (r.getD 4 Cell.na))⟩ hh]
    simp only [Table.rows]
    have hkmem : k ∈ (((t.rows.filter (fun r => maskCell s e (r.getD 4 Cell.na))).filterMap
        (fun r => memKey (r.getD 0 Cell.na)))).dedup := by
      rw [List.mem_dedup, List.mem_filterMap]
      refine ⟨r, ?_, (memKey_eq_some_iff _ _).mpr hmem⟩
      rw [List.mem_filter]
      exact ⟨hr, hmask⟩
    have hksort : k ∈ List.insertionSort (α := String) (· ≤ ·)
        (((t.rows.filter (fun r => maskCell s e (r.getD 4 Cell.na))).filterMap
          (fun r => memKey (r.getD 0 Cell.na)))).dedup :=
      (List.perm_insertionSort (α := String) (· ≤ ·) _).mem_iff.mpr hkmem
    refine ⟨((((t.rows.filter (fun r => maskCell s e (r.getD 4 Cell.na))).filter
        (fun r => decide (r.getD 0 Cell.na = Cell.str k))).map
          (fun r => numView (r.getD 6 Cell.na))).sum), ?_⟩
    rw [List.mem_map]
    refine ⟨(k, ((((t.rows.filter (fun r => maskCell s e (r.getD 4 Cell.na))).filter
        (fun r => decide (r.getD 0 Cell.na = Cell.str k))).map
          (fun r => numView (r.getD 6 Cell.na))).sum)), ?_, rfl⟩
    rw [List.mem_reverse]
    apply (List.perm_insertionSort durLe _).mem_iff.mpr
    rw [List.mem_reverse]
    rw [List.mem_map]
    exact ⟨k, hksort, rfl⟩

/-- C1: every output row of sum_hours carries a member key and the exact sum
    of the durations of the rows of that member whose start-date lies in the
    inclusive range; a key appears exactly when such a row exists; and the
    range mask matches only genuine date cells, never the missing marker. -/
theorem c1_sum_hours_aggregates (t : Table) (s e : ℤ) (hh : t.header = requiredCols) :
    (∀ row ∈ (sum_hours t s e).rows, ∃ k : String, ∃ q : ℚ,
      row = [Cell.str k, Cell.num q] ∧
      q = ((t.rows.filter (fun r =>
            maskCell s e (r.getD 4 Cell.na) && decide (r.getD 0 Cell.na = Cell.str k))).map
          (fun r => numView (r.getD 6 Cell.na))).sum) ∧
    (∀ k : String,
      (∃ q : ℚ, [Cell.str k, Cell.num q] ∈ (sum_hours t s e).rows) ↔
      (∃ r ∈ t.rows, maskCell s e (r.getD 4 Cell.na) = true ∧ r.getD 0 Cell.na = Cell.str k)) ∧
    (∀ c : Cell, maskCell s e c = true ↔ ∃ d : ℤ, c = Cell.date d ∧ s ≤ d ∧ d ≤ e) :=
  ⟨sum_hours_rows_char t s e hh, fun k => sum_hours_keys_iff t s e hh k,
   fun c => maskCell_iff s e c⟩

/-- Concrete check of the tie behaviour: two members with equal sums appear
    in the aggregate output in their grouped order, Alice before Bob. -/
theorem sum_hours_tie_eval :
    groupSum (filterRows exC2 0 100) = [("Alice", 5), ("Bob", 5)] ∧
    (sum_hours exC2 0 100).rows
      = [[Cell.str "Alice", Cell.num 5], [Cell.str "Bob", Cell.num 5]] :=
  ⟨by with_unfolding_all rfl, by with_unfolding_all rfl⟩

/- ## Missing member fields -/

theorem countP_na_processRow (parse : String → Option ℤ) (r : List Cell) :
    List.countP (fun rr => decide (rr.getD 0 Cell.na = Cell.na)) (processRow parse r)
      = if memKey (r.getD 0 Cell.na) = none then 1 else 0 := by
  unfold processRow
  cases hc : r.getD 0 Cell.na with
  | str s =>
    cases r with
    | nil => simp at hc
    | cons a t0 =>
      simp only [memKey, List.countP_map]
      rw [if_neg (by simp)]
      rw [List.countP_eq_zero]
      intro seg hseg
      simp only [Function.comp]
      rw [getD_zero_dateFix_set]
      simp
  | num q =>
    cases r with
    | nil => simp at hc
    | cons a t0 =>
      have hd : (dateFix parse (mapAt 0 (fun _ => Cell.na) (a :: t0))).getD 0 Cell.na
          = Cell.na := getD_zero_dateFix_set parse Cell.na (a :: t0)
      simp [memKey, List.countP_cons]
      simpa using hd
  | date d =>
    cases r with
    | nil => simp at hc
    | cons a t0 =>
      have hd : (dateFix parse (mapAt 0 (fun _ => Cell.na) (a :: t0))).getD 0 Cell.na
          = Cell.na := getD_zero_dateFix_set parse Cell.na (a :: t0)
      simp [memKey, List.countP_cons]
      simpa using hd
  | strs l =>
    cases r with
    | nil => simp at hc
    | cons a t0 =>
      have hd : (dateFix parse (mapAt 0 (fun _ => Cell.na) (a :: t0))).getD 0 Cell.na
          = Cell.na := getD_zero_dateFix_set parse Cell.na (a :: t0)
      simp [memKey, List.countP_cons]
      simpa using hd
  | na =>
    cases r with
    | nil => simp [memKey, List.countP_cons, dateFix, mapAt]
    | cons a t0 =>
      have hd : (dateFix parse (mapAt 0 (fun _ => Cell.na) (a :: t0))).getD 0 Cell.na
          = Cell.na := getD_zero_dateFix_set parse Cell.na (a :: t0)
      simp [memKey, List.countP_cons]
      simpa using hd

theorem sum_map_eq_countP (l : List (List Cell)) (p : List Cell → Bool) (g : List Cell → Nat)
    (hg : ∀ r ∈ l, g r = if p r then 1 else 0) :
    (l.map g).sum = l.countP p := by
  induction l with
  | nil => simp
  | cons a tl ih =>
    rw [List.map_cons, List.sum_cons, List.countP_cons,
      ih (fun r hr => hg r (by simp [hr])), hg a (by simp)]
    by_cases hpa : p a = true
    · simp [hpa]
      omega
    · simp [hpa]

/-- C10: a missing member field passes through split, explode and strip as
    the missing marker, one output row per such input row and no error; and
    aggregation silently excludes it, since every aggregate row sums exactly
    the rows whose member cell equals the string key, which the missing
    marker never does. -/
theorem c10_missing_member (parse : String → Option ℤ) (t ct : Table)
    (h : (clean_data parse t).2 = Except.ok ct) :
    ct.rows.countP (fun r => decide (r.getD 0 Cell.na = Cell.na))
      = t.rows.countP (fun r =>
          decide (memKey (r.getD ((colIdx (renameHeader t.header) "Membro").getD 0) Cell.na)
            = none)) ∧
    (∀ s e : ℤ, ∀ row ∈ (sum_hours ct s e).rows, ∃ k : String, ∃ q : ℚ,
      row = [Cell.str k, Cell.num q] ∧
      q = ((ct.rows.filter (fun r =>
            maskCell s e (r.getD 4 Cell.na) && decide (r.getD 0 Cell.na = Cell.str k))).map
          (fun r => numView (r.getD 6 Cell.na))).sum) := by
  obtain ⟨hall, hct⟩ := clean_data_ok_inv parse t ct h
  have hh : ct.header = requiredCols := by rw [hct]
  have hrows : ct.rows = (t.rows.map (projectRow (renameHeader t.header) requiredCols)).flatMap
      (processRow parse) := by rw [hct]
  refine ⟨?_, fun s e => sum_hours_rows_char ct s e hh⟩
  rw [hrows, List.countP_flatMap, List.map_map]
  apply sum_map_eq_countP
  intro r hr
  simp only [Function.comp]
  rw [countP_na_processRow, projectRow_getD_zero]
  by_cases hm : memKey (r.getD ((colIdx (renameHeader t.header) "Membro").getD 0) Cell.na) = none
  · simp [hm]
  · simp [hm]

/- ## Concrete evaluations of the cleaning pipeline -/

theorem clean_exRaw_eval : (clean_data parseNone exRaw).2 = Except.ok exRawClean := by
  have h : (clean_data parseNone exRaw).2 = Except.ok
      (⟨["Membro", "Categoria", "Reunião", "Atribuição Interna",
         "Data - start", "Data - end", "Duração", "Detalhamento"],
        [[Cell.str "Alice", Cell.str "c", Cell.str "r", Cell.str "a",
          Cell.date 10, Cell.date 11, Cell.num 3, Cell.str "d"],
         [Cell.str "Bob", Cell.str "c", Cell.str "r", Cell.str "a",
          Cell.date 10, Cell.date 11, Cell.num 3, Cell.str "d"]]⟩ : Table) := by
    with_unfolding_all rfl
  exact h

theorem clean_exTrail_eval : (clean_data parseNone exTrail).2 = Except.ok exTrailClean := by
  have h : (clean_data parseNone exTrail).2 = Except.ok
      (⟨["Membro", "Categoria", "Reunião", "Atribuição Interna",
         "Data - start", "Data - end", "Duração", "Detalhamento"],
        [[Cell.str "Alice", Cell.str "c", Cell.str "r", Cell.str "a",
          Cell.date 10, Cell.date 11, Cell.num 1, Cell.str "d"],
         [Cell.str "", Cell.str "c", Cell.str "r", Cell.str "a",
          Cell.date 10, Cell.date 11, Cell.num 1, Cell.str "d"]]⟩ : Table) := by
    with_unfolding_all rfl
  exact h

theorem clean_exRawNa_eval : (clean_data parseNone exRawNa).2 = Except.ok exRawNaClean := by
  have h : (clean_data parseNone exRawNa).2 = Except.ok
      (⟨["Membro", "Categoria", "Reunião", "Atribuição Interna",
         "Data - start", "Data - end", "Duração", "Detalhamento"],
        [[Cell.str "Alice", Cell.str "c", Cell.str "r", Cell.str "a",
          Cell.date 10, Cell.date 11, Cell.num 1, Cell.str "d"],
         [Cell.na, Cell.str "c", Cell.str "r", Cell.str "a",
          Cell.date 10, Cell.date 11, Cell.num 7, Cell.str "d"]]⟩ : Table) := by
    with_unfolding_all rfl
  exact h

/- ## Formatting and expected hours -/

theorem pyInt_of_nonneg (x : ℚ) (hx : 0 ≤ x) : pyInt x = ⌊x⌋ := by
  simp [pyInt, hx]

/-- C3 (amended): format_hours renders a duration x as floor(x) hours and
    the fractional part times sixty truncated (not rounded) to whole
    minutes, zero padded; 7.5 renders as 7h30min and 0 as 0h00min, and the
    duration column is relabelled. -/
theorem c3_format_truncates :
    (∀ x : ℚ, 0 ≤ x →
      formatHourStr x = toString ⌊x⌋ ++ "h" ++ pad2 ⌊(x - (⌊x⌋ : ℚ)) * 60⌋ ++ "min") ∧
    format_hours exC3b = ⟨["Membro", "Total de Horas"], [[Cell.str "A", Cell.str "7h30min"]]⟩ ∧
    format_hours exC3c = ⟨["Membro", "Total de Horas"], [[Cell.str "A", Cell.str "0h00min"]]⟩ := by
  refine ⟨?_, by with_unfolding_all rfl, by with_unfolding_all rfl⟩
  intro x hx
  unfold formatHourStr
  rw [pyInt_of_nonneg x hx]
  have h2 : (0:ℚ) ≤ (x - (⌊x⌋ : ℚ)) * 60 := by
    have hf := Int.fract_nonneg x
    rw [Int.fract] at hf
    exact mul_nonneg hf (by norm_num)
  rw [pyInt_of_nonneg _ h2]

/-- C3 as stated is false: the minutes are truncated, not rounded to the
    nearest integer; at duration 1.999999 the program prints 1h59min while
    the stated rounding formula yields 1h60min. -/
theorem c3_counterexample :
    formatHourStr (1999999/1000000) = "1h59min" ∧
    specFormatHourStr (1999999/1000000) = "1h60min" ∧
    format_hours exC3 = ⟨["Membro", "Total de Horas"], [[Cell.str "A", Cell.str "1h59min"]]⟩ :=
  ⟨by with_unfolding_all rfl, by with_unfolding_all rfl, by with_unfolding_all rfl⟩

theorem fdiv_cast_floor (n : ℤ) (d : ℕ) : Int.fdiv n (d : ℤ) = ⌊(n : ℚ) / ((d : ℕ) : ℚ)⌋ := by
  rw [Int.fdiv_eq_ediv _ (by positivity)]
  rw [Rat.floor_intCast_div_natCast]

/-- C4: add_expected_hours writes, identically in every row, the single
    scalar (weeks - 1) * 6 where weeks is the floored elapsed days divided
    by seven and floored again; with the wall clock injected as a parameter
    the result is deterministic, and 42 elapsed days give 30. -/
theorem c4_add_expected (now start_date : ℤ) (t : Table) :
    (∀ r ∈ (add_expected_hours now t start_date).rows,
      r.getLast? = some (Cell.num
        (((⌊((⌊((now - start_date : ℤ) : ℚ) / ((86400 : ℕ) : ℚ)⌋ : ℤ) : ℚ) / ((7 : ℕ) : ℚ)⌋
          - 1) * 6 : ℤ)))) ∧
    (∀ t2 : Table, ∀ r ∈ (add_expected_hours (42 * 86400) t2 0).rows,
      r.getLast? = some (Cell.num 30)) ∧
    (add_expected_hours now t start_date).header = t.header ++ ["Horas Esperadas"] := by
  have key : ∀ (n s : ℤ), (Int.fdiv (Int.fdiv (n - s) secondsPerDay) 7 - 1) * 6
      = (⌊((⌊((n - s : ℤ) : ℚ) / ((86400 : ℕ) : ℚ)⌋ : ℤ) : ℚ) / ((7 : ℕ) : ℚ)⌋ - 1) * 6 := by
    intro n s
    rw [show secondsPerDay = ((86400 : ℕ) : ℤ) from rfl]
    rw [fdiv_cast_floor (n - s) 86400]
    rw [show (7 : ℤ) = ((7 : ℕ) : ℤ) from rfl]
    rw [fdiv_cast_floor _ 7]
  refine ⟨?_, ?_, ?_⟩
  · intro r hr
    simp only [add_expected_hours] at hr
    rw [List.mem_map] at hr
    obtain ⟨r0, hr0, hre⟩ := hr
    rw [← hre, List.getLast?_concat]
    rw [← key now start_date]
  · intro t2 r hr
    simp only [add_expected_hours] at hr
    rw [List.mem_map] at hr
    obtain ⟨r0, hr0, hre⟩ := hr
    rw [← hre, List.getLast?_concat]
    norm_num [secondsPerDay, Int.fdiv]
  · simp [add_expected_hours]

/-- C8: get_data fails with the not-found error, without opening the file,
    whenever the path does not exist; wraps the underlying parse failure in
    a load error when the file exists but cannot be read as a spreadsheet;
    and returns the loaded table on success. -/
theorem c8_get_data (pathExists : String → Bool) (readExcel : String → Except String Table)
    (p : String) :
    (pathExists p = false →
      get_data pathExists readExcel p = (LoadResult.notFound p, false)) ∧
    (∀ msg : String, pathExists p = true → readExcel p = Except.error msg →
      get_data pathExists readExcel p = (LoadResult.loadError msg, true)) ∧
    (∀ tb : Table, pathExists p = true → readExcel p = Except.ok tb →
      get_data pathExists readExcel p = (LoadResult.ok tb, true)) := by
  refine ⟨?_, ?_, ?_⟩
  · intro h
    unfold get_data
    rw [h]
    rfl
  · intro msg h1 h2
    unfold get_data
    rw [h1, h2]
    rfl
  · intro tb h1 h2
    unfold get_data
    rw [h1, h2]
    rfl

/-- C9 (amended): after the in-place rename of the raw member column,
    clean_data fails with the schema error exactly when one of the eight
    projected columns is missing from the renamed header (so a table
    carrying the raw member column name instead of the projected one is
    accepted), and such a failure aborts the pipeline before any
    aggregation. -/
theorem c9_schema_check (parse : String → Option ℤ) (t : Table) (now s e : ℤ) :
    ((clean_data parse t).2 = Except.error CleanError.schemaError ↔
      ∃ c ∈ requiredCols, c ∉ renameHeader t.header) ∧
    ((∃ c ∈ requiredCols, c ∉ renameHeader t.header) →
      run_pipeline parse now t s e = Except.error CleanError.schemaError) := by
  have h1 := clean_data_err_iff parse t
  have h2 : (clean_data parse t).2 = Except.error CleanError.schemaError ↔
      ∃ c ∈ requiredCols, c ∉ renameHeader t.header := by
    rw [h1]
    constructor
    · intro hn
      push_neg at hn
      exact hn
    · intro hex
      push_neg
      exact hex
  refine ⟨h2, fun hex => ?_⟩
  have herr := h2.mpr hex
  unfold run_pipeline
  rw [herr]

/-- C9 as stated is false: this table has no column named exactly Membro,
    one of the stated eight, yet clean_data accepts it, because the
    in-place rename turns its raw member column into Membro first. -/
theorem c9_counterexample :
    "Membro" ∉ exRaw.header ∧ (clean_data parseNone exRaw).2 = Except.ok exRawClean :=
  ⟨of_decide_eq_true (by with_unfolding_all rfl), clean_exRaw_eval⟩

/-- C6 as stated is false: the source member field of this row is the
    non-empty string with a trailing separator, yet cleaning produces a row
    whose trimmed member field is the empty string. -/
theorem c6_counterexample :
    (clean_data parseNone exTrail).2 = Except.ok exTrailClean ∧
    (exTrailClean.rows.getD 1 []).getD 0 Cell.na = Cell.str "" ∧
    (exTrail.rows.getD 0 []).getD 0 Cell.na = Cell.str "Alice;" ∧
    "Alice;" ≠ "" :=
  ⟨clean_exTrail_eval, by with_unfolding_all rfl, by with_unfolding_all rfl,
   of_decide_eq_true (by with_unfolding_all rfl)⟩

/- ## Witnesses -/

/-- Witness for C1 at a concrete cleaned table and range. -/
theorem c1_witness :
    exC2.header = requiredCols ∧
    (∃ k : String, ∃ q : ℚ, [Cell.str "Bob", Cell.num 5] = [Cell.str k, Cell.num q] ∧
      q = ((exC2.rows.filter (fun r =>
            maskCell 0 100 (r.getD 4 Cell.na) && decide (r.getD 0 Cell.na = Cell.str k))).map
          (fun r => numView (r.getD 6 Cell.na))).sum) :=
  ⟨rfl, (c1_sum_hours_aggregates exC2 0 100 rfl).1 [Cell.str "Bob", Cell.num 5]
    (of_decide_eq_true (by with_unfolding_all rfl))⟩

/-- Witness for C3 at the duration seven and a half. -/
theorem c3_witness :
    (0:ℚ) ≤ 15/2 ∧
    formatHourStr (15/2) = toString ⌊(15/2 : ℚ)⌋ ++ "h"
      ++ pad2 ⌊((15/2 : ℚ) - (⌊(15/2 : ℚ)⌋ : ℚ)) * 60⌋ ++ "min" :=
  ⟨by norm_num, c3_format_truncates.1 (15/2) (by norm_num)⟩

/-- Witness for C4: forty-two elapsed days yield thirty expected hours. -/
theorem c4_witness :
    [Cell.str "A", Cell.num (15/2), Cell.num 30]
      ∈ (add_expected_hours (42 * 86400) exC3b 0).rows ∧
    ([Cell.str "A", Cell.num (15/2), Cell.num 30] : List Cell).getLast?
      = some (Cell.num 30) :=
  ⟨of_decide_eq_true (by with_unfolding_all rfl),
   (c4_add_expected 0 0 exC3b).2.1 exC3b [Cell.str "A", Cell.num (15/2), Cell.num 30]
     (of_decide_eq_true (by with_unfolding_all rfl))⟩

/-- Witness for C5 at a concrete raw table with a two-member field. -/
theorem c5_witness :
    (clean_data parseNone exRaw).2 = Except.ok exRawClean ∧
    exRaw.rows.length ≤ exRawClean.rows.length :=
  ⟨clean_exRaw_eval, (c5_clean_expansion parseNone exRaw exRawClean clean_exRaw_eval).1⟩

/-- Witness for C6 at a concrete cleaned row. -/
theorem c6_witness :
    (clean_data parseNone exRaw).2 = Except.ok exRawClean ∧
    (([Cell.str "Alice", Cell.str "c", Cell.str "r", Cell.str "a",
       Cell.date 10, Cell.date 11, Cell.num 3, Cell.str "d"] : List Cell).getD 0 Cell.na
        = Cell.na ∨
     ∃ s : String, ([Cell.str "Alice", Cell.str "c", Cell.str "r", Cell.str "a",
       Cell.date 10, Cell.date 11, Cell.num 3, Cell.str "d"] : List Cell).getD 0 Cell.na
         = Cell.str s ∧ pyStrip s = s) :=
  ⟨clean_exRaw_eval,
   c6_member_trimmed parseNone exRaw exRawClean clean_exRaw_eval
     [Cell.str "Alice", Cell.str "c", Cell.str "r", Cell.str "a",
      Cell.date 10, Cell.date 11, Cell.num 3, Cell.str "d"]
     (of_decide_eq_true (by with_unfolding_all rfl))⟩

/-- Witness for C7: a table without the raw member column is untouched. -/
theorem c7_witness :
    "Membro - name" ∉ exC2.header ∧ (clean_data parseNone exC2).1 = exC2 :=
  ⟨of_decide_eq_true (by with_unfolding_all rfl),
   (c7_clean_mutation parseNone exC2).2.2 (of_decide_eq_true (by with_unfolding_all rfl))⟩

/-- Witness for C8 at a filesystem without the requested file. -/
theorem c8_witness :
    get_data fsEmpty readFail "data/210225.xlsx"
      = (LoadResult.notFound "data/210225.xlsx", false) :=
  (c8_get_data fsEmpty readFail "data/210225.xlsx").1 rfl

/-- Witness for C9 at a table missing every member column. -/
theorem c9_witness :
    ((clean_data parseNone exMissing).2 = Except.error CleanError.schemaError ↔
      ∃ c ∈ requiredCols, c ∉ renameHeader exMissing.header) ∧
    run_pipeline parseNone 0 exMissing 0 0 = Except.error CleanError.schemaError :=
  ⟨(c9_schema_check parseNone exMissing 0 0 0).1,
   (c9_schema_check parseNone exMissing 0 0 0).2
     ⟨"Membro", of_decide_eq_true (by with_unfolding_all rfl),
      of_decide_eq_true (by with_unfolding_all rfl)⟩⟩

/-- Witness for C10 at a raw table with one missing member field. -/
theorem c10_witness :
    (clean_data parseNone exRawNa).2 = Except.ok exRawNaClean ∧
    exRawNaClean.rows.countP (fun r => decide (r.getD 0 Cell.na = Cell.na))
      = exRawNa.rows.countP (fun r =>
          decide (memKey (r.getD ((colIdx (renameHeader exRawNa.header) "Membro").getD 0)
            Cell.na) = none)) :=
  ⟨clean_exRawNa_eval,
   (c10_missing_member parseNone exRawNa exRawNaClean clean_exRawNa_eval).1⟩
